import Mathlib

/-!
Verification of the Duck Machine DM2022 simulator: instruction codec
(`instruction_set/instr_format.py`), ALU and CPU (`cpu/cpu.py`), and the
two-phase assembler (`asm/assembler_phase1.py`, `asm/assembler_phase2.py`).

Shallow embedding conventions:
* Python ints are `Int` (arbitrary precision); bit extraction uses
  division/modulus by powers of two, which is exactly what shifting and
  masking compute on Python ints (including negative ones, where `>>`
  is a floor shift and `& mask` is the value modulo `2^width`).
* Python code that can raise an exception is embedded as `Option` (or a
  dedicated result type), `none` marking the escaping exception.
-/

namespace Duck

/-! ## BitField codec

Modelled from the spec: `instruction_set/bitfield.py` is not under `src/`
(only its unit tests are).  Per the spec, `extract(word)` shifts right by
`low` and masks to the field width; `extract_signed` additionally
sign-extends; `insert(value, word)` masks the value to the width, shifts it
into position, clears the target bits of `word` and ORs the value in.
Shifts are written as division/multiplication by `2^k` and masking as `% 2^k`;
the OR of the three disjoint bit groups is written as `+`. -/

structure BitField where
  low : Nat
  high : Nat
deriving DecidableEq, Repr

def BitField.width (f : BitField) : Nat := f.high - f.low + 1

def BitField.extract (f : BitField) (word : Int) : Nat :=
  ((word / 2 ^ f.low) % 2 ^ f.width).toNat

/-- Modelled from the spec: reinterpret the low `width` bits as
two's-complement: if the high bit is set, result = value − 2^width. -/
def sign_extend (value : Nat) (width : Nat) : Int :=
  if 2 ^ (width - 1) ≤ value % 2 ^ width then
    (value % 2 ^ width : Int) - 2 ^ width
  else
    (value % 2 ^ width : Int)

def BitField.extract_signed (f : BitField) (word : Int) : Int :=
  sign_extend (f.extract word) f.width

def BitField.insert (f : BitField) (value : Int) (word : Nat) : Nat :=
  (word / 2 ^ (f.high + 1)) * 2 ^ (f.high + 1)
    + (value % 2 ^ (f.width : Nat)).toNat * 2 ^ f.low
    + word % 2 ^ f.low

/-! ## Instruction model (`instruction_set/instr_format.py`) -/

/-- The field bit positions. -/
def reserved : BitField := ⟨31, 31⟩
def op_field : BitField := ⟨26, 30⟩
def cond_field : BitField := ⟨22, 25⟩
def reg_target_field : BitField := ⟨18, 21⟩
def reg_src1_field : BitField := ⟨14, 17⟩
def reg_src2_field : BitField := ⟨10, 13⟩
def offset_field : BitField := ⟨0, 9⟩

/-- The operation codes.  Note the declared codes are 0,1,2,3,5,6,7:
value 4 is *not* an `OpCode`. -/
inductive OpCode where
  | HALT
  | LOAD
  | STORE
  | ADD
  | SUB
  | MUL
  | DIV
deriving DecidableEq, Repr

/-- `OpCode.value` in Python (`HALT = 0`, ..., `DIV = 7`, with 4 skipped). -/
def OpCode.code : OpCode → Nat
  | .HALT => 0
  | .LOAD => 1
  | .STORE => 2
  | .ADD => 3
  | .SUB => 5
  | .MUL => 6
  | .DIV => 7

/-- `OpCode(n)` in Python: the enum constructor, raising `ValueError`
(`none` here) when `n` is not a declared code. -/
def OpCode.fromCode : Nat → Option OpCode
  | 0 => some .HALT
  | 1 => some .LOAD
  | 2 => some .STORE
  | 3 => some .ADD
  | 5 => some .SUB
  | 6 => some .MUL
  | 7 => some .DIV
  | _ => none

def OpCode.name : OpCode → String
  | .HALT => "HALT"
  | .LOAD => "LOAD"
  | .STORE => "STORE"
  | .ADD => "ADD"
  | .SUB => "SUB"
  | .MUL => "MUL"
  | .DIV => "DIV"

/- `CondFlag` values are 4-bit masks; we embed them as their `.value`.
`M=1, Z=2, P=4, V=8, NEVER=0, ALWAYS=15`.  Every `Nat` below 16 is a valid
combination of the declared flags, so `CondFlag(n)` never raises for a
4-bit field value. -/
namespace CondFlag

def M : Nat := 1
def Z : Nat := 2
def P : Nat := 4
def V : Nat := 8
def NEVER : Nat := 0
def ALWAYS : Nat := 15

end CondFlag

/-- `CondFlag.__str__`: the canonical member name for an exact value match
(members iterated in declaration order M, Z, P, V, NEVER, ALWAYS), else the
single-bit names concatenated in order M, Z, P, V. -/
def condStr (v : Nat) : String :=
  if v = 1 then "M"
  else if v = 2 then "Z"
  else if v = 4 then "P"
  else if v = 8 then "V"
  else if v = 0 then "NEVER"
  else if v = 15 then "ALWAYS"
  else
    (if v.testBit 0 then "M" else "")
      ++ (if v.testBit 1 then "Z" else "")
      ++ (if v.testBit 2 then "P" else "")
      ++ (if v.testBit 3 then "V" else "")

/-- A decoded DM2022 instruction word.  `cond` is the `CondFlag` value. -/
structure Instruction where
  op : OpCode
  cond : Nat
  reg_target : Nat
  reg_src1 : Nat
  reg_src2 : Nat
  offset : Int
  reserved : Nat := 0
deriving DecidableEq, Repr

/-- `Instruction.__str__`: `OPCODE[/PRED]   rT,rS1,rS2[OFF]`, the predicate
omitted exactly when `cond` is `ALWAYS`. -/
def Instruction.render (i : Instruction) : String :=
  let pred := if i.cond = CondFlag.ALWAYS then "" else "/" ++ condStr i.cond
  i.op.name ++ pred ++ "   " ++ "r" ++ toString i.reg_target
    ++ ",r" ++ toString i.reg_src1 ++ ",r" ++ toString i.reg_src2
    ++ "[" ++ toString i.offset ++ "]"

/-- `encode`: insert each field of the instruction into a zero word. -/
def Instruction.encode (i : Instruction) : Nat :=
  let word : Nat := 0
  let word := op_field.insert (i.op.code : Int) word
  let word := cond_field.insert (i.cond : Int) word
  let word := reg_target_field.insert (i.reg_target : Int) word
  let word := reg_src1_field.insert (i.reg_src1 : Int) word
  let word := reg_src2_field.insert (i.reg_src2 : Int) word
  let word := offset_field.insert i.offset word
  word

/-- `decode`: extract every field.  `OpCode(op_value)` raises `ValueError`
(`none`) when the 5-bit op field is not a declared code; `CondFlag(v)` never
raises for a 4-bit value, and the extracted reserved bit is stored in the
`Instruction` unchanged. -/
def decode (word : Int) : Option Instruction :=
  let reserved_value := reserved.extract word
  match OpCode.fromCode (op_field.extract word) with
  | none => none
  | some op_value =>
      some
        { op := op_value
          cond := cond_field.extract word
          reg_target := reg_target_field.extract word
          reg_src1 := reg_src1_field.extract word
          reg_src2 := reg_src2_field.extract word
          offset := offset_field.extract_signed word
          reserved := reserved_value }

end Duck

namespace Duck

/-! ## Round-trip of the instruction codec -/

lemma OpCode.code_le (op : OpCode) : op.code ≤ 7 := by cases op <;> decide

lemma OpCode.fromCode_code (op : OpCode) : OpCode.fromCode op.code = some op := by
  cases op <;> rfl

/-- Closed form of `encode`: the six fields occupy disjoint bit groups. -/
lemma encode_closed (op : OpCode) (cond t s1 s2 : Nat) (off : Int) (res : Nat)
    (hc : cond < 16) (ht : t < 16) (h1 : s1 < 16) (h2 : s2 < 16) :
    (Instruction.mk op cond t s1 s2 off res).encode
      = op.code * 2 ^ 26 + cond * 2 ^ 22 + t * 2 ^ 18 + s1 * 2 ^ 14 + s2 * 2 ^ 10
        + (off % 1024).toNat := by
  have hcode := op.code_le
  have s0 : op_field.insert ((op.code : Nat) : Int) 0 = op.code * 2 ^ 26 := by
    simp only [BitField.insert, BitField.width, op_field]
    norm_num
    omega
  have s1' : cond_field.insert ((cond : Nat) : Int) (op.code * 2 ^ 26)
      = op.code * 2 ^ 26 + cond * 2 ^ 22 := by
    simp only [BitField.insert, BitField.width, cond_field]
    norm_num
    omega
  have s2' : reg_target_field.insert ((t : Nat) : Int) (op.code * 2 ^ 26 + cond * 2 ^ 22)
      = op.code * 2 ^ 26 + cond * 2 ^ 22 + t * 2 ^ 18 := by
    simp only [BitField.insert, BitField.width, reg_target_field]
    norm_num
    omega
  have s3' : reg_src1_field.insert ((s1 : Nat) : Int)
        (op.code * 2 ^ 26 + cond * 2 ^ 22 + t * 2 ^ 18)
      = op.code * 2 ^ 26 + cond * 2 ^ 22 + t * 2 ^ 18 + s1 * 2 ^ 14 := by
    simp only [BitField.insert, BitField.width, reg_src1_field]
    norm_num
    omega
  have s4' : reg_src2_field.insert ((s2 : Nat) : Int)
        (op.code * 2 ^ 26 + cond * 2 ^ 22 + t * 2 ^ 18 + s1 * 2 ^ 14)
      = op.code * 2 ^ 26 + cond * 2 ^ 22 + t * 2 ^ 18 + s1 * 2 ^ 14 + s2 * 2 ^ 10 := by
    simp only [BitField.insert, BitField.width, reg_src2_field]
    norm_num
    omega
  have s5' : offset_field.insert off
        (op.code * 2 ^ 26 + cond * 2 ^ 22 + t * 2 ^ 18 + s1 * 2 ^ 14 + s2 * 2 ^ 10)
      = op.code * 2 ^ 26 + cond * 2 ^ 22 + t * 2 ^ 18 + s1 * 2 ^ 14 + s2 * 2 ^ 10
        + (off % 1024).toNat := by
    simp only [BitField.insert, BitField.width, offset_field]
    norm_num
    omega
  show offset_field.insert off
      (reg_src2_field.insert ((s2 : Nat) : Int)
        (reg_src1_field.insert ((s1 : Nat) : Int)
          (reg_target_field.insert ((t : Nat) : Int)
            (cond_field.insert ((cond : Nat) : Int)
              (op_field.insert ((op.code : Nat) : Int) 0))))) = _
  rw [s0, s1', s2', s3', s4', s5']

/-- `decode` is a left inverse of `encode` for in-range fields and
`reserved = 0`. -/
theorem decode_encode (i : Instruction) (hc : i.cond < 16) (ht : i.reg_target < 16)
    (h1 : i.reg_src1 < 16) (h2 : i.reg_src2 < 16)
    (ho1 : -512 ≤ i.offset) (ho2 : i.offset ≤ 511) (hr : i.reserved = 0) :
    decode (i.encode : Int) = some i := by
  obtain ⟨op, cond, t, s1, s2, off, res⟩ := i
  simp only at hc ht h1 h2 ho1 ho2 hr
  subst hr
  rw [decode, encode_closed op cond t s1 s2 off 0 hc ht h1 h2]
  have hcode := op.code_le
  have hm : ((off % 1024).toNat) < 1024 := by omega
  generalize hmm : (off % 1024).toNat = m at *
  have eop : op_field.extract
      ((op.code * 2 ^ 26 + cond * 2 ^ 22 + t * 2 ^ 18 + s1 * 2 ^ 14 + s2 * 2 ^ 10 + m
        : Nat) : Int) = op.code := by
    simp only [BitField.extract, BitField.width, op_field]
    norm_num
    omega
  have econd : cond_field.extract
      ((op.code * 2 ^ 26 + cond * 2 ^ 22 + t * 2 ^ 18 + s1 * 2 ^ 14 + s2 * 2 ^ 10 + m
        : Nat) : Int) = cond := by
    simp only [BitField.extract, BitField.width, cond_field]
    norm_num
    omega
  have et : reg_target_field.extract
      ((op.code * 2 ^ 26 + cond * 2 ^ 22 + t * 2 ^ 18 + s1 * 2 ^ 14 + s2 * 2 ^ 10 + m
        : Nat) : Int) = t := by
    simp only [BitField.extract, BitField.width, reg_target_field]
    norm_num
    omega
  have e1 : reg_src1_field.extract
      ((op.code * 2 ^ 26 + cond * 2 ^ 22 + t * 2 ^ 18 + s1 * 2 ^ 14 + s2 * 2 ^ 10 + m
        : Nat) : Int) = s1 := by
    simp only [BitField.extract, BitField.width, reg_src1_field]
    norm_num
    omega
  have e2 : reg_src2_field.extract
      ((op.code * 2 ^ 26 + cond * 2 ^ 22 + t * 2 ^ 18 + s1 * 2 ^ 14 + s2 * 2 ^ 10 + m
        : Nat) : Int) = s2 := by
    simp only [BitField.extract, BitField.width, reg_src2_field]
    norm_num
    omega
  have eoff : offset_field.extract_signed
      ((op.code * 2 ^ 26 + cond * 2 ^ 22 + t * 2 ^ 18 + s1 * 2 ^ 14 + s2 * 2 ^ 10 + m
        : Nat) : Int) = off := by
    simp only [BitField.extract_signed, BitField.extract, sign_extend, BitField.width,
      offset_field]
    norm_num
    split <;> omega
  have eres : reserved.extract
      ((op.code * 2 ^ 26 + cond * 2 ^ 22 + t * 2 ^ 18 + s1 * 2 ^ 14 + s2 * 2 ^ 10 + m
        : Nat) : Int) = 0 := by
    simp only [BitField.extract, BitField.width, reserved]
    norm_num
    omega
  rw [eop, OpCode.fromCode_code, econd, et, e1, e2, eoff, eres]

/-- C2: for every `OpCode`, every `CondFlag` value, register indices in
`0..15` and offset within the signed range of the 10-bit offset field,
an instruction with `reserved = 0` decodes from its encoding to an
instruction that renders identically (same string form, including
predicate omission for ALWAYS and exact spacing). -/
theorem decode_encode_renders_identically (i : Instruction)
    (hc : i.cond < 16) (ht : i.reg_target < 16)
    (h1 : i.reg_src1 < 16) (h2 : i.reg_src2 < 16)
    (ho1 : -512 ≤ i.offset) (ho2 : i.offset ≤ 511) (hr : i.reserved = 0) :
    (decode (i.encode : Int)).map Instruction.render = some i.render := by
  rw [decode_encode i hc ht h1 h2 ho1 ho2 hr]
  rfl

theorem decode_encode_renders_identically_witness :
    (decode ((Instruction.mk .SUB 3 2 1 3 (-12) 0).encode : Int)).map Instruction.render
      = some (Instruction.mk .SUB 3 2 1 3 (-12) 0).render :=
  decode_encode_renders_identically (Instruction.mk .SUB 3 2 1 3 (-12) 0)
    (by decide) (by decide) (by decide) (by decide) (by decide) (by decide) rfl

/-! ## The reserved bit under `decode` (C9) -/

lemma decode_isSome_iff (w : Int) :
    (decode w).isSome ↔ (OpCode.fromCode (op_field.extract w)).isSome := by
  rw [decode]
  cases OpCode.fromCode (op_field.extract w) <;> simp

/-- C9 counterexample: the word with only the reserved bit set decodes
without error, but the resulting `Instruction` has `reserved = 1`, not 0. -/
theorem decode_reserved_bit_not_zero :
    decode 2147483648 = some (Instruction.mk .HALT 0 0 0 0 0 1) := by decide

/-- C9 amended: `decode` never rejects a word because of a nonzero reserved
bit — its success is unchanged by clearing bit 31 — and the resulting
`Instruction`'s `reserved` field equals the word's bit 31 (so it is 0 exactly
when the reserved bit is clear, e.g. for every encoded instruction). -/
theorem decode_ignores_reserved_bit (w : Nat) (hw : w < 2 ^ 32) :
    ((decode (w : Int)).isSome ↔ (decode ((w % 2 ^ 31 : Nat) : Int)).isSome)
      ∧ (∀ i, decode (w : Int) = some i → i.reserved = w / 2 ^ 31) := by
  constructor
  · rw [decode_isSome_iff, decode_isSome_iff]
    have : op_field.extract (w : Int) = op_field.extract ((w % 2 ^ 31 : Nat) : Int) := by
      simp only [BitField.extract, BitField.width, op_field]
      norm_num
      omega
    rw [this]
  · intro i hi
    rw [decode] at hi
    rcases hfc : OpCode.fromCode (op_field.extract (w : Int)) with _ | op
    · rw [hfc] at hi; exact absurd hi (by simp)
    · rw [hfc] at hi
      have : i.reserved = reserved.extract (w : Int) := by
        cases hi; rfl
      rw [this]
      simp only [BitField.extract, BitField.width, reserved]
      norm_num
      omega

theorem decode_ignores_reserved_bit_witness :
    ((decode ((2147483648 : Nat) : Int)).isSome
        ↔ (decode (((2147483648 : Nat) % 2 ^ 31 : Nat) : Int)).isSome)
      ∧ (∀ i, decode ((2147483648 : Nat) : Int) = some i
          → i.reserved = 2147483648 / 2 ^ 31) :=
  decode_ignores_reserved_bit 2147483648 (by norm_num)

example : (Instruction.mk .MUL 6 1 3 15 42 0).render = "MUL/ZP   r1,r3,r15[42]" := by
  decide

example : (Instruction.mk .ADD 15 0 15 15 0 0).render = "ADD   r0,r15,r15[0]" := by
  decide

example :
    decode ((Instruction.mk .SUB 3 2 1 3 (-12) 0).encode : Int)
      = some (Instruction.mk .SUB 3 2 1 3 (-12) 0) := by decide

/-! ## ALU (`cpu/cpu.py`) -/

/-- `ALU.ALU_OPS`: the operation table.  `x // y` is Python floor
division; with `y = 0` it raises `ZeroDivisionError` (`none` here); no
other entry can raise on Python ints. -/
def ALU_OPS (op : OpCode) (x y : Int) : Option Int :=
  match op with
  | .ADD => some (x + y)
  | .SUB => some (x - y)
  | .MUL => some (x * y)
  | .DIV => if y = 0 then none else some (Int.fdiv x y)
  | .LOAD => some (x + y)
  | .STORE => some (x + y)
  | .HALT => some 0

/-- `ALU.exec`: look up and apply the table entry; an escaping arithmetic
exception is caught and reported as `(0, V)`; otherwise the condition flag
is derived from the sign of the result. -/
def ALU.exec (op : OpCode) (in1 in2 : Int) : Int × Nat :=
  match ALU_OPS op in1 in2 with
  | none => (0, CondFlag.V)
  | some result =>
      if result = 0 then (result, CondFlag.Z)
      else if result < 0 then (result, CondFlag.M)
      else (result, CondFlag.P)

/-! ## Registers, memory, CPU state (`cpu/cpu.py`)

Modelled from the spec: `cpu/register.py`, `cpu/memory.py` and `cpu/mvc.py`
are not under `src/`.  Per the spec, register 0 reads 0 and ignores writes
(`ZeroRegister`), the other 15 slots are ordinary cells, and memory is flat
word-addressable storage; we model memory as a total map so that the CPU's
only possible failure is in `decode`.  Step events (`mvc.py`) are
notifications that must not mutate state, so they are omitted. -/

/-- A register file: slot 0 is the `ZeroRegister`. -/
def regGet (regs : Nat → Int) (i : Nat) : Int :=
  if i = 0 then 0 else regs i

def regPut (regs : Nat → Int) (i : Nat) (v : Int) : Nat → Int :=
  if i = 0 then regs else fun j => if j = i then v else regs j

def memPut (mem : Int → Int) (addr v : Int) : Int → Int :=
  fun a => if a = addr then v else mem a

structure CPUState where
  regs : Nat → Int
  condition : Nat
  halted : Bool
  mem : Int → Int

/-- `CPU.step`: fetch, decode, check the predicate, then either apply the
instruction's effect (pc is incremented before the opcode-specific effect)
or advance pc only.  `none` is an exception escaping `step`. -/
def step (s : CPUState) : Option CPUState :=
  let instr_addr := regGet s.regs 15
  let instr_word := s.mem instr_addr
  match decode instr_word with
  | none => none
  | some instr =>
      let condition_satisfied := s.condition &&& instr.cond > 0
      if condition_satisfied then
        let left_operand := regGet s.regs instr.reg_src1
        let right_operand := instr.offset + regGet s.regs instr.reg_src2
        let r := ALU.exec instr.op left_operand right_operand
        let regs1 := regPut s.regs 15 (regGet s.regs 15 + 1)
        match instr.op with
        | .STORE =>
            some { s with regs := regs1,
                          mem := memPut s.mem r.1 (regGet regs1 instr.reg_target) }
        | .LOAD =>
            some { s with regs := regPut regs1 instr.reg_target (s.mem r.1) }
        | .HALT =>
            some { s with regs := regs1, halted := true }
        | _ =>
            some { s with regs := regPut regs1 instr.reg_target r.1,
                          condition := r.2 }
      else
        some { s with regs := regPut s.regs 15 (regGet s.regs 15 + 1) }

/-- The state-resetting prefix of `CPU.run(from_addr)`:
`halted = False; registers[15].put(from_addr)` before the stepping loop. -/
def runReset (s : CPUState) (from_addr : Int) : CPUState :=
  { s with halted := false, regs := regPut s.regs 15 from_addr }

/-! ## C3: ALU functional correctness -/

/-- C3: `ALU.exec` computes `x+y` for ADD, `x−y` for SUB, `x·y` for MUL,
floor division for DIV, `x+y` for LOAD and STORE, `0` for HALT; the flag is
Z/M/P by the sign of the result; division by zero is caught and reported as
`(0, V)`; and the four concrete examples of the spec hold. -/
theorem alu_exec_functional_correctness (x y : Int) :
    ALU.exec .ADD x y
        = (x + y, if x + y = 0 then CondFlag.Z else if x + y < 0 then CondFlag.M
            else CondFlag.P)
      ∧ ALU.exec .SUB x y
        = (x - y, if x - y = 0 then CondFlag.Z else if x - y < 0 then CondFlag.M
            else CondFlag.P)
      ∧ ALU.exec .MUL x y
        = (x * y, if x * y = 0 then CondFlag.Z else if x * y < 0 then CondFlag.M
            else CondFlag.P)
      ∧ (y ≠ 0 → ALU.exec .DIV x y
        = (Int.fdiv x y, if Int.fdiv x y = 0 then CondFlag.Z
            else if Int.fdiv x y < 0 then CondFlag.M else CondFlag.P))
      ∧ ALU.exec .DIV x 0 = (0, CondFlag.V)
      ∧ ALU.exec .LOAD x y
        = (x + y, if x + y = 0 then CondFlag.Z else if x + y < 0 then CondFlag.M
            else CondFlag.P)
      ∧ ALU.exec .STORE x y
        = (x + y, if x + y = 0 then CondFlag.Z else if x + y < 0 then CondFlag.M
            else CondFlag.P)
      ∧ ALU.exec .HALT x y = (0, CondFlag.Z)
      ∧ ALU.exec .ADD 5 3 = (8, CondFlag.P)
      ∧ ALU.exec .SUB 3 3 = (0, CondFlag.Z)
      ∧ ALU.exec .DIV 12 0 = (0, CondFlag.V)
      ∧ ALU.exec .MUL (-3) 5 = (-15, CondFlag.M) := by
  have hpair : ∀ r : Int,
      (if r = 0 then (r, CondFlag.Z) else if r < 0 then (r, CondFlag.M) else (r, CondFlag.P))
        = (r, if r = 0 then CondFlag.Z else if r < 0 then CondFlag.M else CondFlag.P) := by
    intro r
    split
    · simp_all
    · split <;> simp_all
  refine ⟨?_, ?_, ?_, ?_, ?_, ?_, ?_, ?_, by decide, by decide, by decide, by decide⟩
  · simpa [ALU.exec, ALU_OPS] using hpair (x + y)
  · simpa [ALU.exec, ALU_OPS] using hpair (x - y)
  · simpa [ALU.exec, ALU_OPS] using hpair (x * y)
  · intro hy
    simpa [ALU.exec, ALU_OPS, hy] using hpair (Int.fdiv x y)
  · simp [ALU.exec, ALU_OPS]
  · simpa [ALU.exec, ALU_OPS] using hpair (x + y)
  · simpa [ALU.exec, ALU_OPS] using hpair (x + y)
  · simp [ALU.exec, ALU_OPS, CondFlag.Z]

theorem alu_exec_functional_correctness_witness :
    ALU.exec .DIV 12 3
      = (Int.fdiv 12 3, if Int.fdiv 12 3 = 0 then CondFlag.Z
          else if Int.fdiv 12 3 < 0 then CondFlag.M else CondFlag.P) :=
  (alu_exec_functional_correctness 12 3).2.2.2.1 (by norm_num)

/-! ## C1: exceptions escaping `step` -/

/-- C1 counterexample: the word whose 5-bit op field holds 4 — not a
declared `OpCode`, though representable in the field — reaches `decode`,
`OpCode(4)` raises `ValueError`, and the exception escapes `step`. -/
theorem step_exception_escapes :
    step (CPUState.mk (fun _ => 0) CondFlag.ALWAYS false (fun _ => 4 * 2 ^ 26))
      = none := rfl

/-- C1 amended: `step` completes without an exception exactly when the
fetched word's 5-bit op field holds one of the seven declared `OpCode`
values; op-field values outside that set (e.g. 4) reach `decode` and the
`ValueError` escapes `step`. -/
theorem step_isSome_iff_declared_opcode (s : CPUState) :
    (step s).isSome
      ↔ (OpCode.fromCode (op_field.extract (s.mem (regGet s.regs 15)))).isSome := by
  rw [← decode_isSome_iff]
  rw [step]
  cases hd : decode (s.mem (regGet s.regs 15)) with
  | none => simp
  | some instr =>
      simp only [Option.isSome_some, iff_true]
      split
      · cases instr.op <;> simp
      · simp

/-! ## C4: predication and the frame of an unsatisfied step -/

/-- C4: the instruction's effect is gated on
`(condition & instr.cond) ≠ NEVER`; when the predicate is unsatisfied the
only state change is `pc ← pc+1` — every other register, the condition
flag, the halted flag and all of memory are unchanged. -/
theorem step_unsatisfied_only_pc_increment (s : CPUState) (instr : Instruction)
    (hd : decode (s.mem (regGet s.regs 15)) = some instr)
    (hc : s.condition &&& instr.cond = CondFlag.NEVER) :
    step s = some { s with regs := regPut s.regs 15 (regGet s.regs 15 + 1) }
      ∧ (∀ i, i ≠ 15 → regPut s.regs 15 (regGet s.regs 15 + 1) i = s.regs i) := by
  constructor
  · rw [step, hd]
    simp only [CondFlag.NEVER] at hc
    simp [hc]
  · intro i hi
    simp [regPut, hi]

theorem step_unsatisfied_only_pc_increment_witness :
    step (CPUState.mk (fun _ => 3) CondFlag.ALWAYS false (fun _ => 0))
        = some { CPUState.mk (fun _ => 3) CondFlag.ALWAYS false (fun _ => 0) with
            regs := regPut (fun _ => 3) 15
              (regGet (fun _ => 3) 15 + 1) }
      ∧ (∀ i, i ≠ 15 → regPut (fun _ => 3) 15
          (regGet (fun _ => 3) 15 + 1) i = (fun _ => (3 : Int)) i) :=
  step_unsatisfied_only_pc_increment
    (CPUState.mk (fun _ => 3) CondFlag.ALWAYS false (fun _ => 0))
    (Instruction.mk .HALT 0 0 0 0 0 0) (by decide) (by decide)

/-! ## C8: what `run(from_addr)` actually resets -/

/-- A CPU state left over by a previous run: r1 holds 42, the condition
flag holds Z, and memory holds `ADD r2,r1,r0` everywhere. -/
def staleState : CPUState :=
  CPUState.mk (fun i => if i = 1 then 42 else 0) CondFlag.Z true
    (fun _ => ((Instruction.mk .ADD 15 2 1 0 0 0).encode : Int))

/-- C8 counterexample: `run`'s reset leaves r1 = 42 and condition = Z from
the previous run, and the new run's first step observes the stale r1: the
`ADD r2,r1,r0` it executes copies 42 into r2. -/
theorem runReset_leaves_stale_state :
    (runReset staleState 0).regs 1 = 42
      ∧ (runReset staleState 0).condition = CondFlag.Z
      ∧ ∃ s', step (runReset staleState 0) = some s' ∧ s'.regs 2 = 42 := by
  exact ⟨rfl, rfl, _, rfl, rfl⟩

/-- C8 amended: `run(from_addr)` resets only pc (to `from_addr`) and the
halted flag (to false) before stepping; every other register, the condition
flag and memory retain their values from before the call. -/
theorem runReset_resets_only_pc_halted (s : CPUState) (a : Int) :
    regGet (runReset s a).regs 15 = a
      ∧ (runReset s a).halted = false
      ∧ (∀ i, i ≠ 15 → (runReset s a).regs i = s.regs i)
      ∧ (runReset s a).condition = s.condition
      ∧ (runReset s a).mem = s.mem := by
  refine ⟨?_, rfl, ?_, rfl, rfl⟩
  · simp [runReset, regGet, regPut]
  · intro i hi
    simp [runReset, regPut, hi]

theorem runReset_resets_only_pc_halted_witness :
    regGet (runReset staleState 7).regs 15 = 7
      ∧ (runReset staleState 7).halted = false
      ∧ (∀ i, i ≠ 15 → (runReset staleState 7).regs i = staleState.regs i)
      ∧ (runReset staleState 7).condition = staleState.condition
      ∧ (runReset staleState 7).mem = staleState.mem :=
  runReset_resets_only_pc_halted staleState 7

/-! ## Assembler grammar (`asm/assembler_phase1.py`, `asm/assembler_phase2.py`)

The source classifies lines with five `re` patterns tried in order.  Each
pattern is embedded as a deterministic matcher on `List Char`; the patterns
are such that the greedy sub-matches (`\s*`, `\w*`, `[a-zA-Z]+`, `[0-9]+`,
`[A-Z]+`, `.*`) never need backtracking, because the character that must
follow each repeated class is never a member of that class.  Character
classes are the ASCII classes written in the patterns (`\s`/`\w` restricted
to ASCII; all inputs in the repository are ASCII).  Lines are single lines:
no `'\n'` occurs inside them. -/

def pySpace (c : Char) : Bool :=
  c = ' ' || c = '\t' || c = '\n' || c = '\r' || c = '\x0b' || c = '\x0c'

def isAlphaC (c : Char) : Bool :=
  ('a' ≤ c && c ≤ 'z') || ('A' ≤ c && c ≤ 'Z')

def isDigitC (c : Char) : Bool := '0' ≤ c && c ≤ '9'

def isWordC (c : Char) : Bool := isAlphaC c || isDigitC c || c = '_'

def isUpperC (c : Char) : Bool := 'A' ≤ c && c ≤ 'Z'

def isHexC (c : Char) : Bool :=
  isDigitC c || ('a' ≤ c && c ≤ 'f') || ('A' ≤ c && c ≤ 'F')

inductive AsmSrcKind where
  | COMMENT
  | FULL
  | DATA
  | MEMOP
  | JUMP
deriving DecidableEq, Repr

/-- The `groupdict()` of a match: each named capture group, plus the kind. -/
structure Fields where
  label : Option (List Char) := none
  opcode : List Char := []
  predicate : Option (List Char) := none
  target : List Char := []
  src1 : List Char := []
  src2 : List Char := []
  offset : Option (List Char) := none
  value : Option (List Char) := none
  labelref : List Char := []
  comment : Option (List Char) := none
  kind : AsmSrcKind := .COMMENT
deriving DecidableEq, Repr

/-- `((?P<label>[a-zA-Z]\w*):)?` — an optional label; `':'` is not a word
character, so the greedy `\w*` is exact. -/
def tryLabel (cs : List Char) : Option (List Char) × List Char :=
  match cs with
  | [] => (none, cs)
  | c :: rest =>
      if isAlphaC c then
        match rest.span isWordC with
        | (w, rest2) =>
            match rest2 with
            | c2 :: rest3 => if c2 = ':' then (some (c :: w), rest3) else (none, cs)
            | [] => (none, cs)
      else (none, cs)

/-- `\s+` followed by the pattern's next token. -/
def spaces1 : List Char → Option (List Char)
  | [] => none
  | c :: rest => if pySpace c then some (rest.dropWhile pySpace) else none

/-- `(/(?P<predicate>[A-Z]+))?` — if `'/'` is present the predicate letters
must follow (skipping the group would put `'/'` where `\s+` is required). -/
def tryPred : List Char → Option (Option (List Char) × List Char)
  | [] => some (none, [])
  | c :: rest =>
      if c = '/' then
        match rest.span isUpperC with
        | (p, rest2) => if p.isEmpty then none else some (some p, rest2)
      else some (none, c :: rest)

/-- `r[0-9]+` — a register token, captured with its `r`. -/
def regTok : List Char → Option (List Char × List Char)
  | [] => none
  | c :: rest =>
      if c = 'r' then
        match rest.span isDigitC with
        | (ds, rest2) => if ds.isEmpty then none else some (c :: ds, rest2)
      else none

def expectChar (c : Char) : List Char → Option (List Char)
  | x :: rest => if x = c then some rest else none
  | [] => none

/-- A literal token of the pattern (`DATA`, `JUMP`). -/
def expectLit : List Char → List Char → Option (List Char)
  | [], cs => some cs
  | l :: ls, c :: cs => if c = l then expectLit ls cs else none
  | _ :: _, [] => none

/-- `(\[(?P<offset>[-]?[0-9]+)\])?`. -/
def tryOffset : List Char → Option (Option (List Char) × List Char)
  | [] => some (none, [])
  | c :: rest =>
      if c = '[' then
        let negRest : Bool × List Char :=
          match rest with
          | c2 :: r => if c2 = '-' then (true, r) else (false, rest)
          | [] => (false, rest)
        match negRest.2.span isDigitC with
        | (ds, rest2) =>
            if ds.isEmpty then none
            else
              match rest2 with
              | c3 :: rest3 =>
                  if c3 = ']' then
                    some (some (if negRest.1 then '-' :: ds else ds), rest3)
                  else none
              | [] => none
      else some (none, c :: rest)

/-- `(\s*(?P<comment>[#;].*))?\s*$` — the greedy `.*` takes the rest of the
line (no `'\n'` occurs in a line). -/
def commentEnd (cs : List Char) : Option (Option (List Char)) :=
  match cs.dropWhile pySpace with
  | [] => some none
  | c :: rest => if c = '#' || c = ';' then some (some (c :: rest)) else none

/-- `(?P<value>(0x[a-fA-F0-9]+)|([0-9]+))?` of the DATA pattern.  On `0x`
with no hex digit the first alternative fails and `[0-9]+` matches the `0`
alone, as the regex engine would. -/
def tryValue : List Char → Option (List Char) × List Char
  | '0' :: 'x' :: rest =>
      match rest.span isHexC with
      | (hs, rest2) =>
          if hs.isEmpty then (some ['0'], 'x' :: rest)
          else (some ('0' :: 'x' :: hs), rest2)
  | cs =>
      match cs.span isDigitC with
      | (ds, rest2) => if ds.isEmpty then (none, cs) else (some ds, rest2)

/-- `[a-zA-Z]\w*` — a label reference. -/
def labelRef : List Char → Option (List Char × List Char)
  | c :: rest =>
      if isAlphaC c then
        match rest.span isWordC with
        | (w, rest2) => some (c :: w, rest2)
      else none
  | [] => none

/-- `ASM_FULL_PAT` (textually identical in both assembler phases). -/
def matchFull (cs0 : List Char) : Option Fields := do
  let cs := cs0.dropWhile pySpace
  let (lab, cs) := tryLabel cs
  let cs := cs.dropWhile pySpace
  let (op, cs) := cs.span isAlphaC
  if op.isEmpty then none else
  let (pred, cs) ← tryPred cs
  let cs ← spaces1 cs
  let (tgt, cs) ← regTok cs
  let cs ← expectChar ',' cs
  let (s1, cs) ← regTok cs
  let cs ← expectChar ',' cs
  let (s2, cs) ← regTok cs
  let (off, cs) ← tryOffset cs
  let com ← commentEnd cs
  pure { label := lab, opcode := op, predicate := pred, target := tgt,
         src1 := s1, src2 := s2, offset := off, comment := com, kind := .FULL }

/-- `ASM_DATA_PAT` (textually identical in both assembler phases). -/
def matchData (cs0 : List Char) : Option Fields := do
  let cs := cs0.dropWhile pySpace
  let (lab, cs) := tryLabel cs
  let cs := cs.dropWhile pySpace
  let cs ← expectLit "DATA".toList cs
  let (v, cs) := tryValue (cs.dropWhile pySpace)
  let com ← commentEnd cs
  pure { label := lab, opcode := "DATA".toList, value := v, comment := com,
         kind := .DATA }

/-- `ASM_COMMENT_PAT` (textually identical in both assembler phases). -/
def matchComment (cs0 : List Char) : Option Fields := do
  let cs := cs0.dropWhile pySpace
  let (lab, cs) := tryLabel cs
  let com ← commentEnd cs
  pure { label := lab, comment := com, kind := .COMMENT }

/-- `ASM_MEMOP_PAT` (phase 1 only). -/
def matchMemop (cs0 : List Char) : Option Fields := do
  let cs := cs0.dropWhile pySpace
  let (lab, cs) := tryLabel cs
  let cs := cs.dropWhile pySpace
  let (op, cs) := cs.span isAlphaC
  if op.isEmpty then none else
  let (pred, cs) ← tryPred cs
  let cs ← spaces1 cs
  let (tgt, cs) ← regTok cs
  let cs ← expectChar ',' cs
  let (ref, cs) ← labelRef cs
  let com ← commentEnd cs
  pure { label := lab, opcode := op, predicate := pred, target := tgt,
         labelref := ref, comment := com, kind := .MEMOP }

/-- `ASM_JUMP_PAT` (phase 1 only); the pattern has no opcode group. -/
def matchJump (cs0 : List Char) : Option Fields := do
  let cs := cs0.dropWhile pySpace
  let (lab, cs) := tryLabel cs
  let cs := cs.dropWhile pySpace
  let cs ← expectLit "JUMP".toList cs
  let (pred, cs) ← tryPred cs
  let cs ← spaces1 cs
  let (ref, cs) ← labelRef cs
  let com ← commentEnd cs
  pure { label := lab, predicate := pred, labelref := ref, comment := com,
         kind := .JUMP }

/-- Phase 1 `parse_line`: the ordered pattern list FULL, DATA, COMMENT,
MEMOP, JUMP; `none` is the raised `SyntaxError`. -/
def p1ParseLine (cs : List Char) : Option Fields :=
  matchFull cs <|> matchData cs <|> matchComment cs
    <|> matchMemop cs <|> matchJump cs

/-- Phase 2 `parse_line`: the ordered pattern list FULL, DATA, COMMENT. -/
def p2ParseLine (cs : List Char) : Option Fields :=
  matchFull cs <|> matchData cs <|> matchComment cs

end Duck

namespace Duck

example : (matchMemop "again:  STORE r1,x".toList).map Fields.kind = some .MEMOP := by decide

example : p1ParseLine "again:  STORE r1,x".toList
    = some { label := some "again".toList, opcode := "STORE".toList,
             target := "r1".toList, labelref := "x".toList, kind := .MEMOP } := by decide

example : (p1ParseLine "        SUB   r1,r0,r0[1]".toList).map Fields.kind
    = some .FULL := by decide

example : p1ParseLine "        JUMP/P again".toList
    = some { predicate := some "P".toList, labelref := "again".toList,
             kind := .JUMP } := by decide

example : (p1ParseLine "x:      DATA 0".toList).map Fields.kind = some .DATA := by decide

example : (p1ParseLine "   # a comment".toList).map Fields.kind = some .COMMENT := by decide

example : p1ParseLine "@@@".toList = none := by decide

/-! ## Assembler Phase 1 (`asm/assembler_phase1.py`) -/

/-- Python `str.rstrip()`. -/
def rstrip (cs : List Char) : List Char := (cs.reverse.dropWhile pySpace).reverse

/-- A label table (`dict[str, int]`); later assignments overwrite. -/
def labelsUpdate (m : List Char → Option Nat) (k : List Char) (v : Nat) :
    List Char → Option Nat :=
  fun x => if x = k then some v else m x

/-- `resolve`: one pass assigning addresses, recording each label at the
current address (a later duplicate definition overwrites); per-line
exceptions are ignored, and the address advances only on a parsed
non-COMMENT line. -/
def resolveGo : List (List Char) → Nat → (List Char → Option Nat)
    → (List Char → Option Nat)
  | [], _, m => m
  | l :: rest, address, m =>
      match p1ParseLine (rstrip l) with
      | some fields =>
          let m' := match fields.label with
            | some lab => labelsUpdate m lab address
            | none => m
          let address' := if fields.kind ≠ AsmSrcKind.COMMENT then address + 1 else address
          resolveGo rest address' m'
      | none => resolveGo rest address m

def resolve (lines : List (List Char)) : List Char → Option Nat :=
  resolveGo lines 0 (fun _ => none)

/-- `str(int)`: decimal digits, no sign, no leading zeros. -/
def decDigit : Nat → Char
  | 0 => '0'
  | 1 => '1'
  | 2 => '2'
  | 3 => '3'
  | 4 => '4'
  | 5 => '5'
  | 6 => '6'
  | 7 => '7'
  | 8 => '8'
  | _ => '9'

/-- Digits of `n`, most significant first; the fuel argument (any bound on
`n`) only makes the recursion structural. -/
def natStrAux : Nat → Nat → List Char
  | 0, n => [decDigit n]
  | fuel + 1, n =>
      if n < 10 then [decDigit n]
      else natStrAux fuel (n / 10) ++ [decDigit (n % 10)]

def natStr (n : Nat) : List Char := natStrAux n n

def intStr (d : Int) : List Char :=
  if d < 0 then '-' :: natStr d.natAbs else natStr d.toNat

/-- `fix_optional_fields`: fill in optional label, predicate and comment,
adding the punctuation they require. -/
def fixLabel : Option (List Char) → List Char
  | none => "    ".toList
  | some l => l ++ [':']

def fixPred : Option (List Char) → List Char
  | none => "    ".toList
  | some p => '/' :: p

def fixComment : Option (List Char) → List Char
  | none => "    ".toList
  | some c => c

/-- The MEMOP branch of `transform`:
`f"{label}   {opcode}{predicate}  {target},r0,r15[{d}] #{labelref}  {comment}"`. -/
def lowerMemop (f : Fields) (d : Int) : List Char :=
  fixLabel f.label ++ "   ".toList ++ f.opcode ++ fixPred f.predicate
    ++ "  ".toList ++ f.target ++ ",r0,r15[".toList ++ intStr d ++ "] #".toList
    ++ f.labelref ++ "  ".toList ++ fixComment f.comment

/-- The JUMP branch of `transform`:
`f"{label}   ADD{predicate} r15,r0,r15[{d}] #{labelref}  {comment}"`. -/
def lowerJump (f : Fields) (d : Int) : List Char :=
  fixLabel f.label ++ "   ADD".toList ++ fixPred f.predicate
    ++ " r15,r0,r15[".toList ++ intStr d ++ "] #".toList
    ++ f.labelref ++ "  ".toList ++ fixComment f.comment

/-- `mem_addr` plus the emission, for MEMOP: `labels[ref]` raises `KeyError`
(`none`) when the label is undefined, else the PC-relative displacement is
`labels[ref] - address`. -/
def memopBranch (f : Fields) (labels : List Char → Option Nat) (address : Nat) :
    Option (List Char) :=
  match labels f.labelref with
  | none => none
  | some t => some (lowerMemop f ((t : Int) - (address : Int)))

/-- `mem_addr` plus the emission, for JUMP. -/
def jumpBranch (f : Fields) (labels : List Char → Option Nat) (address : Nat) :
    Option (List Char) :=
  match labels f.labelref with
  | none => none
  | some t => some (lowerJump f ((t : Int) - (address : Int)))

/-- Phase 1 `ERROR_LIMIT`. -/
def ERROR_LIMIT_P1 : Nat := 10

inductive P1Result where
  | ok (lines : List (List Char))
  | exit1
  | crash
deriving DecidableEq, Repr

/-- The loop body of `transform`.  The `prevFields` argument models the
Python local variable `fields`: the address-update
`if fields["kind"] != AsmSrcKind.COMMENT` sits *outside* the
`try`/`except` blocks, so after a caught parse error it reads the previous
line's fields — and if no line has parsed yet, the name is unbound and the
`UnboundLocalError` escapes `transform` (`crash`). -/
def transformGo (labels : List Char → Option Nat) :
    List (List Char) → Nat → Nat → Option Fields → List (List Char) → P1Result
  | [], _, _, _, acc => .ok acc.reverse
  | l :: rest, error_count, address, prevFields, acc =>
      let line := rstrip l
      let afterTry : Nat × List (List Char) × Option Fields :=
        match p1ParseLine line with
        | none => (error_count + 1, acc, prevFields)
        | some fields =>
            match fields.kind with
            | .FULL => (error_count, line :: acc, some fields)
            | .DATA => (error_count, line :: acc, some fields)
            | .MEMOP =>
                match memopBranch fields labels address with
                | none => (error_count + 1, acc, some fields)
                | some out => (error_count, out :: acc, some fields)
            | .JUMP =>
                match jumpBranch fields labels address with
                | none => (error_count + 1, acc, some fields)
                | some out => (error_count, out :: acc, some fields)
            | .COMMENT => (error_count, line :: acc, some fields)
      match afterTry with
      | (errs, acc', fcur) =>
          match fcur with
          | none => .crash
          | some f =>
              let address' := if f.kind ≠ AsmSrcKind.COMMENT then address + 1 else address
              if errs > ERROR_LIMIT_P1 then .exit1
              else transformGo labels rest errs address' (some f) acc'

/-- Phase 1 `transform`. -/
def transform (lines : List (List Char)) : P1Result :=
  transformGo (resolve lines) lines 0 0 none []

/-! ## Assembler Phase 2 (`asm/assembler_phase2.py`) -/

/-- `INSTR_DEFAULTS`: predicate defaults to `ALWAYS`, offset to `0`. -/
def fill_defaults (f : Fields) : Fields :=
  { f with
    predicate := some (match f.predicate with
      | none => "ALWAYS".toList
      | some p => p)
    offset := some (match f.offset with
      | none => "0".toList
      | some o => o) }

/-- Phase 2 `to_flag`: an exact `CondFlag` member name, else the union of
single-letter member names; any other letter raises `KeyError` (`none`). -/
def to_flag (m : List Char) : Option Nat :=
  if m = "M".toList then some CondFlag.M
  else if m = "Z".toList then some CondFlag.Z
  else if m = "P".toList then some CondFlag.P
  else if m = "V".toList then some CondFlag.V
  else if m = "NEVER".toList then some CondFlag.NEVER
  else if m = "ALWAYS".toList then some CondFlag.ALWAYS
  else
    m.foldl
      (fun acc c =>
        match acc with
        | none => none
        | some a =>
            match c with
            | 'M' => some (a ||| CondFlag.M)
            | 'Z' => some (a ||| CondFlag.Z)
            | 'P' => some (a ||| CondFlag.P)
            | 'V' => some (a ||| CondFlag.V)
            | _ => none)
      (some 0)

/-- `NAMED_REGS` lookup (`KeyError` is `none`). -/
def NAMED_REGS (s : List Char) : Option Nat :=
  if s = "r0".toList then some 0
  else if s = "zero".toList then some 0
  else if s = "r1".toList then some 1
  else if s = "r2".toList then some 2
  else if s = "r3".toList then some 3
  else if s = "r4".toList then some 4
  else if s = "r5".toList then some 5
  else if s = "r6".toList then some 6
  else if s = "r7".toList then some 7
  else if s = "r8".toList then some 8
  else if s = "r9".toList then some 9
  else if s = "r10".toList then some 10
  else if s = "r11".toList then some 11
  else if s = "r12".toList then some 12
  else if s = "r13".toList then some 13
  else if s = "r14".toList then some 14
  else if s = "r15".toList then some 15
  else if s = "pc".toList then some 15
  else none

/-- `OpCode[name]` lookup (`KeyError` is `none`). -/
def opcodeByName (s : List Char) : Option OpCode :=
  if s = "HALT".toList then some .HALT
  else if s = "LOAD".toList then some .LOAD
  else if s = "STORE".toList then some .STORE
  else if s = "ADD".toList then some .ADD
  else if s = "SUB".toList then some .SUB
  else if s = "MUL".toList then some .MUL
  else if s = "DIV".toList then some .DIV
  else none

def digitVal (c : Char) : Nat := c.toNat - 48

def digitsToNat (ds : List Char) : Nat :=
  ds.foldl (fun a c => a * 10 + digitVal c) 0

/-- `int(s)` on the captured offset shape `[-]?[0-9]+`. -/
def strToInt (s : List Char) : Int :=
  match s with
  | '-' :: ds => -(digitsToNat ds : Int)
  | ds => (digitsToNat ds : Int)

def hexVal (c : Char) : Nat :=
  if isDigitC c then c.toNat - 48
  else if 'a' ≤ c && c ≤ 'f' then c.toNat - 87
  else c.toNat - 55

def hexToNat (ds : List Char) : Nat :=
  ds.foldl (fun a c => a * 16 + hexVal c) 0

/-- `value_parse`: `0x`-hex or decimal literal. -/
def value_parse (s : List Char) : Nat :=
  match s with
  | '0' :: 'x' :: rest => hexToNat rest
  | ds => digitsToNat ds

/-- `instruction_from_dict`: resolve mnemonics into an `Instruction`;
a `KeyError` (`none`) is raised for an unknown opcode, predicate or
register name.  Called after `fill_defaults`. -/
def instruction_from_dict (f : Fields) : Option Instruction := do
  let opcode ← opcodeByName f.opcode
  let pred ← to_flag (f.predicate.getD [])
  let tgt ← NAMED_REGS f.target
  let s1 ← NAMED_REGS f.src1
  let s2 ← NAMED_REGS f.src2
  pure (Instruction.mk opcode pred tgt s1 s2 (strToInt (f.offset.getD [])) 0)

/-- Phase 2 `ERROR_LIMIT`. -/
def ERROR_LIMIT_P2 : Nat := 15

inductive P2Result where
  | ok (words : List Int)
  | exit1
deriving DecidableEq, Repr

/-- The loop of `assemble`: per-line errors are caught and counted (a DATA
line with no value raises `AttributeError` inside `value_parse`, caught by
the generic handler); the run aborts once the count exceeds the limit. -/
def assembleGo : List (List Char) → Nat → List Int → P2Result
  | [], _, acc => .ok acc.reverse
  | l :: rest, error_count, acc =>
      let afterTry : Nat × List Int :=
        match p2ParseLine l with
        | none => (error_count + 1, acc)
        | some fields =>
            match fields.kind with
            | .FULL =>
                match instruction_from_dict (fill_defaults fields) with
                | none => (error_count + 1, acc)
                | some instr => (error_count, (instr.encode : Int) :: acc)
            | .DATA =>
                match fields.value with
                | none => (error_count + 1, acc)
                | some v => (error_count, (value_parse v : Int) :: acc)
            | _ => (error_count, acc)
      match afterTry with
      | (errs, acc') =>
          if errs > ERROR_LIMIT_P2 then .exit1 else assembleGo rest errs acc'

/-- Phase 2 `assemble`. -/
def assemble (lines : List (List Char)) : P2Result := assembleGo lines 0 []

/-! ## C6: the five-line end-to-end program -/

/-- The five-line source program of the spec's end-to-end test. -/
def c6Prog : List (List Char) :=
  ["again:  STORE r1,x".toList,
   "        SUB   r1,r0,r0[1]".toList,
   "        JUMP/P again".toList,
   "        HALT r0,r0,r0".toList,
   "x:      DATA 0".toList]

/-- Phase 1's output on the five-line program. -/
def c6Lowered : List (List Char) :=
  ["again:   STORE      r1,r0,r15[4] #x      ".toList,
   "        SUB   r1,r0,r0[1]".toList,
   "       ADD/P r15,r0,r15[-2] #again      ".toList,
   "        HALT r0,r0,r0".toList,
   "x:      DATA 0".toList]

/-- C6: Phase 1 resolves `x` to address 4 and `again` to address 0,
rewrites the STORE at address 0 with displacement 4 and the JUMP at
address 2 as an ADD with displacement −2; Phase 2 then emits exactly five
words, the DATA line encoding literally to word 0. -/
theorem five_line_program_end_to_end :
    resolve c6Prog "x".toList = some 4
      ∧ resolve c6Prog "again".toList = some 0
      ∧ transform c6Prog = .ok c6Lowered
      ∧ assemble c6Lowered = .ok [197409796, 398721025, 222052350, 62914560, 0]
      ∧ [(197409796 : Int), 398721025, 222052350, 62914560, 0].length = 5
      ∧ ([(197409796 : Int), 398721025, 222052350, 62914560, 0].getLast? = some 0) := by
  refine ⟨by decide, by decide, by decide, by decide, by decide, by decide⟩

/-! ## C7: per-line error handling in the assembler phases -/

/-! ## Helper lemmas about characters, spans and digit strings -/

lemma bindB_some {α β : Type} (a : α) (f : α → Option β) : (some a >>= f) = f a := rfl

lemma bindB_none {α β : Type} (f : α → Option β) : ((none : Option α) >>= f) = none := rfl

lemma pySpace_eq_false_of_isWordC {c : Char} (h : isWordC c = true) : pySpace c = false := by
  rcases hc : pySpace c
  · rfl
  · exfalso
    simp only [pySpace, Bool.or_eq_true, decide_eq_true_eq] at hc
    rcases hc with ((((rfl | rfl) | rfl) | rfl) | rfl) | rfl <;> exact absurd h (by decide)

lemma isWordC_of_isAlphaC {c : Char} (h : isAlphaC c = true) : isWordC c = true := by
  simp [isWordC, h]

lemma isWordC_of_isDigitC {c : Char} (h : isDigitC c = true) : isWordC c = true := by
  simp [isWordC, h]

lemma isAlphaC_of_isUpperC {c : Char} (h : isUpperC c = true) : isAlphaC c = true := by
  simp only [isUpperC, Bool.and_eq_true] at h
  simp [isAlphaC, h]

lemma pySpace_eq_false_of_isAlphaC {c : Char} (h : isAlphaC c = true) : pySpace c = false :=
  pySpace_eq_false_of_isWordC (isWordC_of_isAlphaC h)

lemma pySpace_eq_false_of_isDigitC {c : Char} (h : isDigitC c = true) : pySpace c = false :=
  pySpace_eq_false_of_isWordC (isWordC_of_isDigitC h)

lemma isDigitC_ne_hyphen {c : Char} (h : isDigitC c = true) : c ≠ '-' := by
  rintro rfl
  exact absurd h (by decide)

lemma isAlphaC_ne_colon {c : Char} (h : isAlphaC c = true) : c ≠ ':' := by
  rintro rfl
  exact absurd h (by decide)

lemma dropWhile_append_cons {p : Char → Bool} {xs ys : List Char} {y : Char}
    (h : ∀ x ∈ xs, p x = true) (hy : p y = false) :
    (xs ++ y :: ys).dropWhile p = y :: ys := by
  induction xs with
  | nil => simp [List.dropWhile, hy]
  | cons a as ih =>
      have ha : p a = true := h a (by simp)
      simp only [List.cons_append, List.dropWhile, ha]
      exact ih (fun x hx => h x (by simp [hx]))

lemma takeWhile_append_cons {p : Char → Bool} {xs ys : List Char} {y : Char}
    (h : ∀ x ∈ xs, p x = true) (hy : p y = false) :
    (xs ++ y :: ys).takeWhile p = xs := by
  induction xs with
  | nil => simp [List.takeWhile, hy]
  | cons a as ih =>
      have ha : p a = true := h a (by simp)
      simp only [List.cons_append, List.takeWhile, ha]
      simp [ih (fun x hx => h x (by simp [hx]))]

lemma span_append_cons {p : Char → Bool} {xs ys : List Char} {y : Char}
    (h : ∀ x ∈ xs, p x = true) (hy : p y = false) :
    (xs ++ y :: ys).span p = (xs, y :: ys) := by
  rw [List.span_eq_take_drop, takeWhile_append_cons h hy, dropWhile_append_cons h hy]

lemma decDigit_isDigitC (k : Nat) : isDigitC (decDigit k) = true := by
  unfold decDigit
  split <;> decide

lemma natStrAux_shape (fuel : Nat) :
    ∀ n, natStrAux fuel n ≠ [] ∧ ∀ c ∈ natStrAux fuel n, isDigitC c = true := by
  induction fuel with
  | zero =>
      intro n
      refine ⟨by simp [natStrAux], ?_⟩
      intro c hc
      simp only [natStrAux, List.mem_singleton] at hc
      subst hc
      exact decDigit_isDigitC n
  | succ fuel ih =>
      intro n
      rw [natStrAux]
      split
      · refine ⟨by simp, ?_⟩
        intro c hc
        simp only [List.mem_singleton] at hc
        subst hc
        exact decDigit_isDigitC n
      · refine ⟨by simp, ?_⟩
        intro c hc
        rcases List.mem_append.mp hc with hc | hc
        · exact (ih (n / 10)).2 c hc
        · simp only [List.mem_singleton] at hc
          subst hc
          exact decDigit_isDigitC (n % 10)

lemma natStr_shape (n : Nat) :
    natStr n ≠ [] ∧ ∀ c ∈ natStr n, isDigitC c = true :=
  natStrAux_shape n n

/-- `tryOffset` consumes `[` + `str(d)` + `]` exactly. -/
lemma tryOffset_intStr (d : Int) (rest : List Char) :
    tryOffset ('[' :: (intStr d ++ ']' :: rest)) = some (some (intStr d), rest) := by
  by_cases hd : d < 0
  · obtain ⟨hne, hdig⟩ := natStr_shape d.natAbs
    have hspn : ∀ ys : List Char,
        (natStr d.natAbs ++ ']' :: ys).span isDigitC = (natStr d.natAbs, ']' :: ys) :=
      fun ys => span_append_cons hdig (by decide)
    simp only [intStr, if_pos hd, List.cons_append]
    rw [tryOffset]
    simp only [eq_self_iff_true, if_true, hspn,
      if_neg (show ¬((natStr d.natAbs).isEmpty = true) by simpa using hne)]
  · obtain ⟨hne, hdig⟩ := natStr_shape d.toNat
    obtain ⟨c, cs, hcs⟩ := List.exists_cons_of_ne_nil hne
    rw [hcs] at hdig
    have hc : isDigitC c = true := hdig c (by simp)
    have hspn : ∀ ys : List Char,
        (c :: (cs ++ ']' :: ys)).span isDigitC = (c :: cs, ']' :: ys) := by
      intro ys
      rw [show c :: (cs ++ ']' :: ys) = (c :: cs) ++ ']' :: ys from rfl]
      exact span_append_cons hdig (by decide)
    simp only [intStr, if_neg hd, hcs, List.cons_append]
    rw [tryOffset]
    simp only [eq_self_iff_true, if_true, if_neg (isDigitC_ne_hyphen hc), hspn,
      if_neg (show ¬((c :: cs).isEmpty = true) by simp)]
    simp

lemma dropWhile_append_all {p : Char → Bool} {xs ys : List Char}
    (h : ∀ x ∈ xs, p x = true) :
    (xs ++ ys).dropWhile p = ys.dropWhile p := by
  induction xs with
  | nil => simp
  | cons a as ih =>
      have ha : p a = true := h a (by simp)
      simp only [List.cons_append, List.dropWhile, ha]
      exact ih (fun x hx => h x (by simp [hx]))

lemma dropWhile_cons_false {p : Char → Bool} {y : Char} {ys : List Char}
    (h : p y = false) :
    (y :: ys).dropWhile p = y :: ys := by
  simp [List.dropWhile, h]

/-- `tryLabel` consumes `label:` when present. -/
lemma tryLabel_some {c : Char} {w rest : List Char}
    (hc : isAlphaC c = true) (hw : ∀ x ∈ w, isWordC x = true) :
    tryLabel (c :: (w ++ ':' :: rest)) = (some (c :: w), rest) := by
  rw [tryLabel, if_pos hc, span_append_cons hw (by decide)]
  rfl

/-- `tryLabel` declines when the leading word is not followed by `:`. -/
lemma tryLabel_stop {c y : Char} {w rest : List Char}
    (hc : isAlphaC c = true) (hw : ∀ x ∈ w, isWordC x = true)
    (hy : isWordC y = false) (hy2 : y ≠ ':') :
    tryLabel (c :: (w ++ y :: rest)) = (none, c :: (w ++ y :: rest)) := by
  rw [tryLabel, if_pos hc, span_append_cons hw hy]
  dsimp only
  rw [if_neg hy2]

lemma tryPred_slash {p : List Char} {y : Char} {rest : List Char}
    (hp : p ≠ []) (hup : ∀ c ∈ p, isUpperC c = true) (hy : isUpperC y = false) :
    tryPred ('/' :: (p ++ y :: rest)) = some (some p, y :: rest) := by
  rw [tryPred, if_pos rfl, span_append_cons hup hy]
  dsimp only
  rw [if_neg (by simpa using hp)]

lemma tryPred_other {y : Char} {cs : List Char} (hy : y ≠ '/') :
    tryPred (y :: cs) = some (none, y :: cs) := by
  rw [tryPred, if_neg hy]

lemma spaces1_cons {s : Char} {cs : List Char} (hs : pySpace s = true) :
    spaces1 (s :: cs) = some (cs.dropWhile pySpace) := by
  rw [spaces1, if_pos hs]

lemma regTok_run {ds rest : List Char} {y : Char}
    (hds : ds ≠ []) (hdig : ∀ c ∈ ds, isDigitC c = true) (hy : isDigitC y = false) :
    regTok ('r' :: (ds ++ y :: rest)) = some ('r' :: ds, y :: rest) := by
  rw [regTok, if_pos rfl, span_append_cons hdig hy]
  dsimp only
  rw [if_neg (by simpa using hds)]

lemma expectChar_eq (c : Char) (rest : List Char) :
    expectChar c (c :: rest) = some rest := by
  rw [expectChar, if_pos rfl]

lemma commentEnd_hash (tail : List Char) :
    commentEnd (' ' :: '#' :: tail) = some (some ('#' :: tail)) := by
  rw [commentEnd]
  rw [show (' ' :: '#' :: tail).dropWhile pySpace = '#' :: tail by
    rw [show (' ' :: '#' :: tail) = [' '] ++ '#' :: tail from rfl,
      dropWhile_append_all (by decide), dropWhile_cons_false (by decide)]]
  rfl

lemma isUpperC_eq_false_of_pySpace {c : Char} (h : pySpace c = true) :
    isUpperC c = false := by
  rcases hu : isUpperC c
  · rfl
  · exact absurd h (by simp [pySpace_eq_false_of_isAlphaC (isAlphaC_of_isUpperC hu)])

lemma dropWhile_space_cons (X : List Char) :
    List.dropWhile pySpace (' ' :: X) = List.dropWhile pySpace X := by
  rw [show (' ' :: X) = [' '] ++ X from rfl, dropWhile_append_all (by decide)]

lemma regTok_r0 (rest : List Char) :
    regTok ('r' :: '0' :: ',' :: rest) = some (['r', '0'], ',' :: rest) := by
  rw [show ('r' :: '0' :: ',' :: rest : List Char) = 'r' :: (['0'] ++ ',' :: rest) from rfl,
    regTok_run (by simp) (by decide) (by decide)]

lemma regTok_r15 (rest : List Char) :
    regTok ('r' :: '1' :: '5' :: '[' :: rest) = some (['r', '1', '5'], '[' :: rest) := by
  rw [show ('r' :: '1' :: '5' :: '[' :: rest : List Char)
      = 'r' :: (['1', '5'] ++ '[' :: rest) from rfl,
    regTok_run (by simp) (by decide) (by decide)]

lemma bindB_eq_some {α β : Type} {m : Option α} {g : α → Option β} {b : β} :
    (m >>= g) = some b ↔ ∃ a, m = some a ∧ g a = some b := by
  cases m
  · simp [bindB_none]
  · simp [bindB_some]

/-- Whatever `tryLabel` captures is a letter followed by word characters. -/
lemma tryLabel_fst_shape (cs : List Char) :
    ∀ l, (tryLabel cs).1 = some l
      → ∃ c w, l = c :: w ∧ isAlphaC c = true ∧ ∀ x ∈ w, isWordC x = true := by
  intro l hl
  unfold tryLabel at hl
  cases cs with
  | nil => exact absurd hl (by simp)
  | cons c rest =>
      dsimp only at hl
      split at hl
      · rename_i hc
        rw [List.span_eq_take_drop] at hl
        dsimp only at hl
        split at hl
        · rename_i c2 rest3 heq
          split at hl
          · refine ⟨c, rest.takeWhile isWordC, ?_, hc, ?_⟩
            · simpa using hl.symm
            · intro x hx
              exact List.mem_takeWhile_imp hx
          · exact absurd hl (by simp)
        · exact absurd hl (by simp)
      · exact absurd hl (by simp)

/-- Whatever `tryPred` captures is a nonempty run of uppercase letters. -/
lemma tryPred_shape {cs : List Char} {p : Option (List Char)} {rest : List Char}
    (h : tryPred cs = some (p, rest)) :
    ∀ s ∈ p, s ≠ [] ∧ ∀ c ∈ s, isUpperC c = true := by
  intro s hs
  unfold tryPred at h
  cases cs with
  | nil =>
      simp only [Option.some.injEq, Prod.mk.injEq] at h
      rw [← h.1] at hs
      exact absurd hs (by simp)
  | cons c cs0 =>
      dsimp only at h
      split at h
      · rw [List.span_eq_take_drop] at h
        dsimp only at h
        split at h
        · exact absurd h (by simp)
        · rename_i hne
          simp only [Option.some.injEq, Prod.mk.injEq] at h
          rw [← h.1] at hs
          simp only [Option.mem_def, Option.some.injEq] at hs
          subst hs
          refine ⟨by simpa using hne, ?_⟩
          intro x hx
          exact List.mem_takeWhile_imp hx
      · simp only [Option.some.injEq, Prod.mk.injEq] at h
        rw [← h.1] at hs
        exact absurd hs (by simp)

/-- Whatever `regTok` captures is `r` followed by a nonempty digit run. -/
lemma regTok_shape {cs tok rest : List Char}
    (h : regTok cs = some (tok, rest)) :
    ∃ ds, tok = 'r' :: ds ∧ ds ≠ [] ∧ ∀ c ∈ ds, isDigitC c = true := by
  unfold regTok at h
  cases cs with
  | nil => exact absurd h (by simp)
  | cons c cs0 =>
      dsimp only at h
      split at h
      · rename_i hc
        subst hc
        rw [List.span_eq_take_drop] at h
        dsimp only at h
        split at h
        · exact absurd h (by simp)
        · rename_i hne
          simp only [Option.some.injEq, Prod.mk.injEq] at h
          refine ⟨cs0.takeWhile isDigitC, h.1.symm, by simpa using hne, ?_⟩
          intro x hx
          exact List.mem_takeWhile_imp hx
      · exact absurd h (by simp)

lemma matchFull_kind {cs : List Char} {f : Fields} (h : matchFull cs = some f) :
    f.kind = .FULL := by
  unfold matchFull at h
  dsimp only at h
  rcases htl : tryLabel (List.dropWhile pySpace cs) with ⟨lab, cs1⟩
  rw [htl] at h
  dsimp only at h
  rcases hsp : List.span isAlphaC (List.dropWhile pySpace cs1) with ⟨op, cs2⟩
  rw [hsp] at h
  dsimp only at h
  split at h
  · exact absurd h (by simp)
  · simp only [Option.pure_def, bindB_eq_some] at h
    obtain ⟨⟨p1, c1⟩, _, c2, _, ⟨t1, c3⟩, _, c4, _, ⟨s1, c5⟩, _, c6, _,
      ⟨s2, c7⟩, _, ⟨o1, c8⟩, _, com, _, hfin⟩ := h
    cases hfin
    rfl

lemma matchData_kind {cs : List Char} {f : Fields} (h : matchData cs = some f) :
    f.kind = .DATA := by
  unfold matchData at h
  dsimp only at h
  rcases htl : tryLabel (List.dropWhile pySpace cs) with ⟨lab, cs1⟩
  rw [htl] at h
  dsimp only at h
  simp only [Option.pure_def, bindB_eq_some] at h
  obtain ⟨c1, _, h⟩ := h
  rcases htv : tryValue (List.dropWhile pySpace c1) with ⟨v, c2⟩
  rw [htv] at h
  dsimp only at h
  obtain ⟨com, _, hfin⟩ := h
  cases hfin
  rfl

lemma matchComment_kind {cs : List Char} {f : Fields} (h : matchComment cs = some f) :
    f.kind = .COMMENT := by
  unfold matchComment at h
  dsimp only at h
  rcases htl : tryLabel (List.dropWhile pySpace cs) with ⟨lab, cs1⟩
  rw [htl] at h
  dsimp only at h
  simp only [Option.pure_def, bindB_eq_some] at h
  obtain ⟨com, _, hfin⟩ := h
  cases hfin
  rfl

lemma matchMemop_kind {cs : List Char} {f : Fields} (h : matchMemop cs = some f) :
    f.kind = .MEMOP := by
  unfold matchMemop at h
  dsimp only at h
  rcases htl : tryLabel (List.dropWhile pySpace cs) with ⟨lab, cs1⟩
  rw [htl] at h
  dsimp only at h
  rcases hsp : List.span isAlphaC (List.dropWhile pySpace cs1) with ⟨op, cs2⟩
  rw [hsp] at h
  dsimp only at h
  split at h
  · exact absurd h (by simp)
  · simp only [Option.pure_def, bindB_eq_some] at h
    obtain ⟨⟨p1, c1⟩, _, c2, _, ⟨t1, c3⟩, _, c4, _, ⟨r1, c5⟩, _, com, _, hfin⟩ := h
    cases hfin
    rfl

lemma matchJump_kind {cs : List Char} {f : Fields} (h : matchJump cs = some f) :
    f.kind = .JUMP := by
  unfold matchJump at h
  dsimp only at h
  rcases htl : tryLabel (List.dropWhile pySpace cs) with ⟨lab, cs1⟩
  rw [htl] at h
  dsimp only at h
  simp only [Option.pure_def, bindB_eq_some] at h
  obtain ⟨c1, _, ⟨p1, c2⟩, _, c3, _, ⟨r1, c4⟩, _, com, _, hfin⟩ := h
  cases hfin
  rfl

/-- The capture shapes guaranteed by a MEMOP match: an optional label,
a nonempty alphabetic opcode, an optional nonempty uppercase predicate,
and an `r`-digit target. -/
lemma matchMemop_shape {cs : List Char} {f : Fields} (h : matchMemop cs = some f) :
    (∀ s ∈ f.label, ∃ c w, s = c :: w ∧ isAlphaC c = true ∧ ∀ x ∈ w, isWordC x = true)
      ∧ (f.opcode ≠ [] ∧ ∀ c ∈ f.opcode, isAlphaC c = true)
      ∧ (∀ s ∈ f.predicate, s ≠ [] ∧ ∀ c ∈ s, isUpperC c = true)
      ∧ ∃ ds, f.target = 'r' :: ds ∧ ds ≠ [] ∧ ∀ c ∈ ds, isDigitC c = true := by
  unfold matchMemop at h
  dsimp only at h
  rcases htl : tryLabel (List.dropWhile pySpace cs) with ⟨lab, cs1⟩
  rw [htl] at h
  dsimp only at h
  rcases hsp : List.span isAlphaC (List.dropWhile pySpace cs1) with ⟨op, cs2⟩
  rw [hsp] at h
  dsimp only at h
  split at h
  · exact absurd h (by simp)
  · rename_i hne
    simp only [Option.pure_def, bindB_eq_some] at h
    obtain ⟨⟨p1, c1⟩, hp1, c2, _, ⟨t1, c3⟩, ht1, c4, _, ⟨r1, c5⟩, _, com, _, hfin⟩ := h
    cases hfin
    refine ⟨?_, ⟨?_, ?_⟩, tryPred_shape hp1, regTok_shape ht1⟩
    · intro s hs
      refine tryLabel_fst_shape (List.dropWhile pySpace cs) s ?_
      rw [htl]
      exact hs
    · simpa using hne
    · intro c hc
      have : op = (List.dropWhile pySpace cs1).takeWhile isAlphaC := by
        have := congrArg Prod.fst hsp
        rw [List.span_eq_take_drop] at this
        exact this.symm
      rw [this] at hc
      exact List.mem_takeWhile_imp hc

/-- The capture shapes guaranteed by a JUMP match. -/
lemma matchJump_shape {cs : List Char} {f : Fields} (h : matchJump cs = some f) :
    (∀ s ∈ f.label, ∃ c w, s = c :: w ∧ isAlphaC c = true ∧ ∀ x ∈ w, isWordC x = true)
      ∧ (∀ s ∈ f.predicate, s ≠ [] ∧ ∀ c ∈ s, isUpperC c = true) := by
  unfold matchJump at h
  dsimp only at h
  rcases htl : tryLabel (List.dropWhile pySpace cs) with ⟨lab, cs1⟩
  rw [htl] at h
  dsimp only at h
  simp only [Option.pure_def, bindB_eq_some] at h
  obtain ⟨c1, _, ⟨p1, c2⟩, hp1, c3, _, ⟨r1, c4⟩, _, com, _, hfin⟩ := h
  cases hfin
  refine ⟨?_, tryPred_shape hp1⟩
  intro s hs
  refine tryLabel_fst_shape (List.dropWhile pySpace cs) s ?_
  rw [htl]
  exact hs

/-- The core of C10: `matchFull` accepts every line of the shape emitted by
the MEMOP and JUMP lowerings — optional label and `:`, separator spaces, an
alphabetic opcode, optional `/PRED`, whitespace, `rDS,r0,r15[str(d)]`, and
a ` #...` trailer — for the capture shapes the phase-1 patterns guarantee
and for every displacement `d`. -/
lemma matchFull_lowered
    (lab : Option (List Char)) (opcode : List Char) (pred : Option (List Char))
    (ds : List Char) (d : Int) (s0 : Char) (sp tail : List Char)
    (hlab : ∀ l ∈ lab, ∃ c w, l = c :: w ∧ isAlphaC c = true ∧ ∀ x ∈ w, isWordC x = true)
    (hop : opcode ≠ []) (hopa : ∀ c ∈ opcode, isAlphaC c = true)
    (hpred : ∀ p ∈ pred, p ≠ [] ∧ ∀ c ∈ p, isUpperC c = true)
    (hds : ds ≠ []) (hdig : ∀ c ∈ ds, isDigitC c = true)
    (hs0 : pySpace s0 = true) (hsp : ∀ x ∈ sp, pySpace x = true) :
    (matchFull (fixLabel lab ++ "   ".toList ++ opcode ++ fixPred pred
      ++ s0 :: sp ++ 'r' :: ds
      ++ ',' :: 'r' :: '0' :: ',' :: 'r' :: '1' :: '5' :: '['
        :: (intStr d ++ ']' :: ' ' :: '#' :: tail))).isSome := by
  obtain ⟨oc, ow, rfl⟩ := List.exists_cons_of_ne_nil hop
  have hoc : isAlphaC oc = true := hopa oc (by simp)
  have how : ∀ x ∈ ow, isWordC x = true :=
    fun x hx => isWordC_of_isAlphaC (hopa x (by simp [hx]))
  have hspan : ∀ y, isAlphaC y = false → ∀ REST : List Char,
      List.span isAlphaC (oc :: (ow ++ y :: REST)) = (oc :: ow, y :: REST) := by
    intro y hy REST
    rw [show oc :: (ow ++ y :: REST) = (oc :: ow) ++ y :: REST from rfl]
    exact span_append_cons (fun x hx => hopa x hx) hy
  have hlabstop : ∀ y, isWordC y = false → y ≠ ':' → ∀ rest : List Char,
      tryLabel (oc :: (ow ++ y :: rest)) = (none, oc :: (ow ++ y :: rest)) :=
    fun y h1 h2 rest => tryLabel_stop hoc how h1 h2
  have hreg1 : ∀ rest : List Char,
      regTok ('r' :: (ds ++ ',' :: rest)) = some ('r' :: ds, ',' :: rest) :=
    fun rest => regTok_run hds hdig (show isDigitC ',' = false by decide)
  have hstopdrop : ∀ X : List Char,
      List.dropWhile pySpace (oc :: X) = oc :: X :=
    fun X => dropWhile_cons_false (pySpace_eq_false_of_isAlphaC hoc)
  have hspdrop : ∀ X : List Char,
      List.dropWhile pySpace (sp ++ 'r' :: X) = 'r' :: X :=
    fun X => dropWhile_append_cons hsp (show pySpace 'r' = false by decide)
  have hs0drop : ∀ X : List Char,
      List.dropWhile pySpace (s0 :: (sp ++ 'r' :: X)) = 'r' :: X := by
    intro X
    rw [show s0 :: (sp ++ 'r' :: X) = (s0 :: sp) ++ 'r' :: X from rfl]
    refine dropWhile_append_cons ?_ (show pySpace 'r' = false by decide)
    intro x hx
    rcases List.mem_cons.mp hx with rfl | hx
    · exact hs0
    · exact hsp x hx
  cases lab with
  | none =>
      cases pred with
      | none =>
          simp only [fixLabel, fixPred, matchFull,
            show "    ".toList = [' ', ' ', ' ', ' '] from rfl,
            show "   ".toList = [' ', ' ', ' '] from rfl,
            List.append_assoc, List.cons_append, List.nil_append,
            dropWhile_space_cons, hstopdrop,
            hlabstop ' ' (by decide) (by decide),
            hspan ' ' (by decide),
            tryPred_other (show (' ' : Char) ≠ '/' by decide),
            spaces1_cons (show pySpace ' ' = true from rfl),
            spaces1_cons hs0, hspdrop, hs0drop,
            hreg1, regTok_r0, regTok_r15, expectChar_eq,
            tryOffset_intStr, commentEnd_hash, bindB_some]
          rfl
      | some p =>
          obtain ⟨hpne, hpup⟩ := hpred p rfl
          simp only [fixLabel, fixPred, matchFull,
            show "    ".toList = [' ', ' ', ' ', ' '] from rfl,
            show "   ".toList = [' ', ' ', ' '] from rfl,
            List.append_assoc, List.cons_append, List.nil_append,
            dropWhile_space_cons, hstopdrop,
            hlabstop '/' (by decide) (by decide),
            hspan '/' (by decide),
            tryPred_slash hpne hpup (isUpperC_eq_false_of_pySpace hs0),
            spaces1_cons hs0, hspdrop, hs0drop,
            hreg1, regTok_r0, regTok_r15, expectChar_eq,
            tryOffset_intStr, commentEnd_hash, bindB_some]
          rfl
  | some l =>
      obtain ⟨c, w, rfl, hc, hw⟩ := hlab l rfl
      cases pred with
      | none =>
          simp only [fixLabel, fixPred, matchFull,
            show "    ".toList = [' ', ' ', ' ', ' '] from rfl,
            show "   ".toList = [' ', ' ', ' '] from rfl,
            List.append_assoc, List.cons_append, List.nil_append,
            dropWhile_cons_false (pySpace_eq_false_of_isAlphaC hc),
            tryLabel_some hc hw,
            dropWhile_space_cons, hstopdrop,
            hspan ' ' (by decide),
            tryPred_other (show (' ' : Char) ≠ '/' by decide),
            spaces1_cons (show pySpace ' ' = true from rfl),
            spaces1_cons hs0, hspdrop, hs0drop,
            hreg1, regTok_r0, regTok_r15, expectChar_eq,
            tryOffset_intStr, commentEnd_hash, bindB_some]
          rfl
      | some p =>
          obtain ⟨hpne, hpup⟩ := hpred p rfl
          simp only [fixLabel, fixPred, matchFull,
            show "    ".toList = [' ', ' ', ' ', ' '] from rfl,
            show "   ".toList = [' ', ' ', ' '] from rfl,
            List.append_assoc, List.cons_append, List.nil_append,
            dropWhile_cons_false (pySpace_eq_false_of_isAlphaC hc),
            tryLabel_some hc hw,
            dropWhile_space_cons, hstopdrop,
            hspan '/' (by decide),
            tryPred_slash hpne hpup (isUpperC_eq_false_of_pySpace hs0),
            spaces1_cons hs0, hspdrop, hs0drop,
            hreg1, regTok_r0, regTok_r15, expectChar_eq,
            tryOffset_intStr, commentEnd_hash, bindB_some]
          rfl

lemma orB_some {α : Type} (a : α) (g : Option α) : ((some a : Option α) <|> g) = some a :=
  rfl

lemma orB_none {α : Type} (g : Option α) : ((none : Option α) <|> g) = g := rfl

/-- Every MEMOP lowering parses as a phase-2 FULL line. -/
lemma matchFull_lowerMemop (f : Fields) (ds : List Char) (d : Int)
    (ht : f.target = 'r' :: ds)
    (hlab : ∀ s ∈ f.label, ∃ c w, s = c :: w ∧ isAlphaC c = true ∧ ∀ x ∈ w, isWordC x = true)
    (hop : f.opcode ≠ []) (hopa : ∀ c ∈ f.opcode, isAlphaC c = true)
    (hpred : ∀ s ∈ f.predicate, s ≠ [] ∧ ∀ c ∈ s, isUpperC c = true)
    (hds : ds ≠ []) (hdig : ∀ c ∈ ds, isDigitC c = true) :
    (matchFull (lowerMemop f d)).isSome := by
  have hcan : lowerMemop f d
      = fixLabel f.label ++ "   ".toList ++ f.opcode ++ fixPred f.predicate
        ++ ' ' :: [' '] ++ 'r' :: ds
        ++ ',' :: 'r' :: '0' :: ',' :: 'r' :: '1' :: '5' :: '['
          :: (intStr d ++ ']' :: ' ' :: '#'
            :: (f.labelref ++ "  ".toList ++ fixComment f.comment)) := by
    rw [lowerMemop, ht]
    simp only [show "  ".toList = [' ', ' '] from rfl,
      show ",r0,r15[".toList = [',', 'r', '0', ',', 'r', '1', '5', '['] from rfl,
      show "] #".toList = [']', ' ', '#'] from rfl,
      List.append_assoc, List.cons_append, List.nil_append]
  rw [hcan]
  exact matchFull_lowered f.label f.opcode f.predicate ds d ' ' [' ']
    (f.labelref ++ "  ".toList ++ fixComment f.comment)
    hlab hop hopa hpred hds hdig (by decide)
    (by intro x hx; rw [List.mem_singleton] at hx; subst hx; decide)

/-- Every JUMP lowering parses as a phase-2 FULL line. -/
lemma matchFull_lowerJump (f : Fields) (d : Int)
    (hlab : ∀ s ∈ f.label, ∃ c w, s = c :: w ∧ isAlphaC c = true ∧ ∀ x ∈ w, isWordC x = true)
    (hpred : ∀ s ∈ f.predicate, s ≠ [] ∧ ∀ c ∈ s, isUpperC c = true) :
    (matchFull (lowerJump f d)).isSome := by
  have hcan : lowerJump f d
      = fixLabel f.label ++ "   ".toList ++ ['A', 'D', 'D'] ++ fixPred f.predicate
        ++ ' ' :: [] ++ 'r' :: ['1', '5']
        ++ ',' :: 'r' :: '0' :: ',' :: 'r' :: '1' :: '5' :: '['
          :: (intStr d ++ ']' :: ' ' :: '#'
            :: (f.labelref ++ "  ".toList ++ fixComment f.comment)) := by
    rw [lowerJump]
    simp only [show "   ADD".toList = [' ', ' ', ' ', 'A', 'D', 'D'] from rfl,
      show "   ".toList = [' ', ' ', ' '] from rfl,
      show " r15,r0,r15[".toList
        = [' ', 'r', '1', '5', ',', 'r', '0', ',', 'r', '1', '5', '['] from rfl,
      show "] #".toList = [']', ' ', '#'] from rfl,
      List.append_assoc, List.cons_append, List.nil_append]
  rw [hcan]
  exact matchFull_lowered f.label ['A', 'D', 'D'] f.predicate ['1', '5'] d ' ' []
    (f.labelref ++ "  ".toList ++ fixComment f.comment)
    hlab (by simp) (by decide) hpred (by simp) (by decide) (by decide) (by simp)

/-- Which pattern produced a phase-1 parse, in the order the source tries
them. -/
lemma p1ParseLine_cases {cs : List Char} {f : Fields} (h : p1ParseLine cs = some f) :
    matchFull cs = some f
      ∨ (matchFull cs = none ∧ matchData cs = some f)
      ∨ (matchFull cs = none ∧ matchData cs = none ∧ matchComment cs = some f)
      ∨ (matchFull cs = none ∧ matchData cs = none ∧ matchComment cs = none
          ∧ matchMemop cs = some f)
      ∨ (matchFull cs = none ∧ matchData cs = none ∧ matchComment cs = none
          ∧ matchMemop cs = none ∧ matchJump cs = some f) := by
  unfold p1ParseLine at h
  cases h1 : matchFull cs with
  | some g => rw [h1, orB_some] at h; exact Or.inl h
  | none =>
      rw [h1, orB_none] at h
      cases h2 : matchData cs with
      | some g => rw [h2, orB_some] at h; exact Or.inr (Or.inl ⟨rfl, h⟩)
      | none =>
          rw [h2, orB_none] at h
          cases h3 : matchComment cs with
          | some g =>
              rw [h3, orB_some] at h
              exact Or.inr (Or.inr (Or.inl ⟨rfl, rfl, h⟩))
          | none =>
              rw [h3, orB_none] at h
              cases h4 : matchMemop cs with
              | some g =>
                  rw [h4, orB_some] at h
                  exact Or.inr (Or.inr (Or.inr (Or.inl ⟨rfl, rfl, rfl, h⟩)))
              | none =>
                  rw [h4, orB_none] at h
                  exact Or.inr (Or.inr (Or.inr (Or.inr ⟨rfl, rfl, rfl, rfl, h⟩)))

lemma p2ParseLine_of_full {cs : List Char} {f : Fields} (h : matchFull cs = some f) :
    p2ParseLine cs = some f := by
  unfold p2ParseLine
  rw [h, orB_some]

lemma p2ParseLine_of_data {cs : List Char} {f : Fields}
    (h1 : matchFull cs = none) (h2 : matchData cs = some f) :
    p2ParseLine cs = some f := by
  unfold p2ParseLine
  rw [h1, orB_none, h2, orB_some]

lemma p2ParseLine_of_comment {cs : List Char} {f : Fields}
    (h1 : matchFull cs = none) (h2 : matchData cs = none) (h3 : matchComment cs = some f) :
    p2ParseLine cs = some f := by
  unfold p2ParseLine
  rw [h1, orB_none, h2, orB_none, h3]

lemma p2ParseLine_isSome_of_full {cs : List Char} (h : (matchFull cs).isSome) :
    (p2ParseLine cs).isSome := by
  rw [Option.isSome_iff_exists] at h
  obtain ⟨f, hf⟩ := h
  rw [p2ParseLine_of_full hf]
  rfl

/-- The transform loop finishes with `.ok` and every line it emits parses
under phase 2, provided every remaining line parses under phase 1 and every
MEMOP/JUMP label reference is defined. -/
lemma transformGo_parses (labels : List Char → Option Nat) :
    ∀ (ls : List (List Char)) (address : Nat) (prevF : Option Fields)
      (acc : List (List Char)),
    (∀ l ∈ ls, (p1ParseLine (rstrip l)).isSome) →
    (∀ l ∈ ls, ∀ f, p1ParseLine (rstrip l) = some f →
        f.kind = AsmSrcKind.MEMOP ∨ f.kind = AsmSrcKind.JUMP →
        (labels f.labelref).isSome) →
    (∀ l' ∈ acc, (p2ParseLine l').isSome) →
    ∃ out, transformGo labels ls 0 address prevF acc = .ok out
      ∧ ∀ l' ∈ out, (p2ParseLine l').isSome := by
  intro ls
  induction ls with
  | nil =>
      intro address prevF acc h1 h2 hacc
      exact ⟨acc.reverse, rfl, fun l' hl' => hacc l' (List.mem_reverse.mp hl')⟩
  | cons l rest ih =>
      intro address prevF acc h1 h2 hacc
      obtain ⟨f, hf⟩ := Option.isSome_iff_exists.mp (h1 l (by simp))
      have h1' : ∀ x ∈ rest, (p1ParseLine (rstrip x)).isSome :=
        fun x hx => h1 x (by simp [hx])
      have h2' : ∀ x ∈ rest, ∀ g, p1ParseLine (rstrip x) = some g →
          g.kind = AsmSrcKind.MEMOP ∨ g.kind = AsmSrcKind.JUMP →
          (labels g.labelref).isSome :=
        fun x hx => h2 x (by simp [hx])
      rw [transformGo, hf]
      dsimp only
      rcases p1ParseLine_cases hf with hF | ⟨hF, hD⟩ | ⟨hF, hD, hC⟩
        | ⟨hF, hD, hC, hM⟩ | ⟨hF, hD, hC, hM, hJ⟩
      · rw [matchFull_kind hF]
        dsimp only
        rw [if_neg (by decide : ¬(0 > ERROR_LIMIT_P1))]
        refine ih _ _ _ h1' h2' ?_
        intro l' hl'
        rcases List.mem_cons.mp hl' with rfl | hl'
        · rw [p2ParseLine_of_full hF]; rfl
        · exact hacc l' hl'
      · rw [matchData_kind hD]
        dsimp only
        rw [if_neg (by decide : ¬(0 > ERROR_LIMIT_P1))]
        refine ih _ _ _ h1' h2' ?_
        intro l' hl'
        rcases List.mem_cons.mp hl' with rfl | hl'
        · rw [p2ParseLine_of_data hF hD]; rfl
        · exact hacc l' hl'
      · rw [matchComment_kind hC]
        dsimp only
        rw [if_neg (by decide : ¬(0 > ERROR_LIMIT_P1))]
        refine ih _ _ _ h1' h2' ?_
        intro l' hl'
        rcases List.mem_cons.mp hl' with rfl | hl'
        · rw [p2ParseLine_of_comment hF hD hC]; rfl
        · exact hacc l' hl'
      · have hk := matchMemop_kind hM
        obtain ⟨t, hlt⟩ := Option.isSome_iff_exists.mp
          (h2 l (by simp) f hf (Or.inl hk))
        obtain ⟨hlab, ⟨hop, hopa⟩, hpred, ds, hds1, hds2, hds3⟩ := matchMemop_shape hM
        rw [hk]
        dsimp only
        rw [memopBranch, hlt]
        dsimp only
        rw [if_neg (by decide : ¬(0 > ERROR_LIMIT_P1))]
        refine ih _ _ _ h1' h2' ?_
        intro l' hl'
        rcases List.mem_cons.mp hl' with rfl | hl'
        · exact p2ParseLine_isSome_of_full
            (matchFull_lowerMemop f ds _ hds1 hlab hop hopa hpred hds2 hds3)
        · exact hacc l' hl'
      · have hk := matchJump_kind hJ
        obtain ⟨t, hlt⟩ := Option.isSome_iff_exists.mp
          (h2 l (by simp) f hf (Or.inr hk))
        obtain ⟨hlab, hpred⟩ := matchJump_shape hJ
        rw [hk]
        dsimp only
        rw [jumpBranch, hlt]
        dsimp only
        rw [if_neg (by decide : ¬(0 > ERROR_LIMIT_P1))]
        refine ih _ _ _ h1' h2' ?_
        intro l' hl'
        rcases List.mem_cons.mp hl' with rfl | hl'
        · exact p2ParseLine_isSome_of_full (matchFull_lowerJump f _ hlab hpred)
        · exact hacc l' hl'

/-! ## C10: Phase 1 output parses under Phase 2's grammar -/

/-- C10: for a source whose every line matches one of Phase 1's grammar
patterns and whose every MEMOP/JUMP label reference is defined, `transform`
completes normally and each of its output lines parses under Phase 2's
grammar (no syntax error); moreover FULL, DATA and COMMENT lines pass
through and re-parse in phase 2 with the same captures and kind, and every
MEMOP/JUMP lowering — for any displacement — matches Phase 2's FULL
pattern. -/
theorem transform_output_parses_under_phase2 (lines : List (List Char))
    (h1 : ∀ l ∈ lines, (p1ParseLine (rstrip l)).isSome)
    (h2 : ∀ l ∈ lines, ∀ f, p1ParseLine (rstrip l) = some f →
        f.kind = AsmSrcKind.MEMOP ∨ f.kind = AsmSrcKind.JUMP →
        ((resolve lines) f.labelref).isSome) :
    (∃ out, transform lines = .ok out ∧ ∀ l' ∈ out, (p2ParseLine l').isSome)
      ∧ (∀ l ∈ lines, ∀ f, p1ParseLine (rstrip l) = some f →
          f.kind = AsmSrcKind.FULL ∨ f.kind = AsmSrcKind.DATA
            ∨ f.kind = AsmSrcKind.COMMENT →
          p2ParseLine (rstrip l) = some f)
      ∧ (∀ l ∈ lines, ∀ f, p1ParseLine (rstrip l) = some f → ∀ d : Int,
          (f.kind = AsmSrcKind.MEMOP → ∃ g, matchFull (lowerMemop f d) = some g
            ∧ g.kind = AsmSrcKind.FULL)
          ∧ (f.kind = AsmSrcKind.JUMP → ∃ g, matchFull (lowerJump f d) = some g
            ∧ g.kind = AsmSrcKind.FULL)) := by
  refine ⟨transformGo_parses (resolve lines) lines 0 none [] h1 h2 (by simp), ?_, ?_⟩
  · intro l hl f hf hk
    rcases p1ParseLine_cases hf with hF | ⟨hF, hD⟩ | ⟨hF, hD, hC⟩
      | ⟨hF, hD, hC, hM⟩ | ⟨hF, hD, hC, hM, hJ⟩
    · exact p2ParseLine_of_full hF
    · exact p2ParseLine_of_data hF hD
    · exact p2ParseLine_of_comment hF hD hC
    · have := matchMemop_kind hM
      rcases hk with hk | hk | hk <;> simp [this, hk] at *
    · have := matchJump_kind hJ
      rcases hk with hk | hk | hk <;> simp [this, hk] at *
  · intro l hl f hf d
    constructor
    · intro hk
      rcases p1ParseLine_cases hf with hF | ⟨hF, hD⟩ | ⟨hF, hD, hC⟩
        | ⟨hF, hD, hC, hM⟩ | ⟨hF, hD, hC, hM, hJ⟩
      · rw [matchFull_kind hF] at hk; exact absurd hk (by decide)
      · rw [matchData_kind hD] at hk; exact absurd hk (by decide)
      · rw [matchComment_kind hC] at hk; exact absurd hk (by decide)
      · obtain ⟨hlab, ⟨hop, hopa⟩, hpred, ds, hds1, hds2, hds3⟩ := matchMemop_shape hM
        obtain ⟨g, hg⟩ := Option.isSome_iff_exists.mp
          (matchFull_lowerMemop f ds d hds1 hlab hop hopa hpred hds2 hds3)
        exact ⟨g, hg, matchFull_kind hg⟩
      · rw [matchJump_kind hJ] at hk; exact absurd hk (by decide)
    · intro hk
      rcases p1ParseLine_cases hf with hF | ⟨hF, hD⟩ | ⟨hF, hD, hC⟩
        | ⟨hF, hD, hC, hM⟩ | ⟨hF, hD, hC, hM, hJ⟩
      · rw [matchFull_kind hF] at hk; exact absurd hk (by decide)
      · rw [matchData_kind hD] at hk; exact absurd hk (by decide)
      · rw [matchComment_kind hC] at hk; exact absurd hk (by decide)
      · rw [matchMemop_kind hM] at hk; exact absurd hk (by decide)
      · obtain ⟨hlab, hpred⟩ := matchJump_shape hJ
        obtain ⟨g, hg⟩ := Option.isSome_iff_exists.mp
          (matchFull_lowerJump f d hlab hpred)
        exact ⟨g, hg, matchFull_kind hg⟩

/-- C10 witness: the five-line program satisfies the hypotheses; phase 1's
output on it parses line by line under phase 2. -/
theorem transform_output_parses_under_phase2_witness :
    ∃ out, transform c6Prog = .ok out ∧ ∀ l' ∈ out, (p2ParseLine l').isSome := by
  obtain ⟨h, _, _⟩ := transform_output_parses_under_phase2 c6Prog (by decide)
    (by decide)
  exact h

/-! ## C5: JUMP lowering and the relative-addressing arithmetic -/

/-- C5: for a `JUMP[/pred] label` line at instruction address `a` whose
label is defined at address `t`, Phase 1 emits the fully resolved
`ADD[/pred] r15,r0,r15[d]` line with displacement `d = t − a`; and a step
that fetches that ADD instruction at address `a` with its predicate
satisfied leaves pc equal to `t` (the operands are read before the pc
increment, and the ADD's write to r15 then overwrites the incremented pc
with `0 + (d + a) = t`). -/
theorem jump_lowering_transfers_control (f : Fields)
    (labels : List Char → Option Nat) (a t : Nat)
    (hlook : labels f.labelref = some t) :
    jumpBranch f labels a = some (lowerJump f ((t : Int) - (a : Int)))
      ∧ ∀ (s : CPUState) (c : Nat),
          regGet s.regs 15 = (a : Int) →
          decode (s.mem (a : Int))
            = some (Instruction.mk .ADD c 15 0 15 ((t : Int) - (a : Int)) 0) →
          s.condition &&& c ≠ 0 →
          ∃ s', step s = some s' ∧ regGet s'.regs 15 = (t : Int) := by
  constructor
  · rw [jumpBranch, hlook]
  · intro s c hpc hdec hsat
    have hr15 : s.regs 15 = (a : Int) := by simpa [regGet] using hpc
    rw [step, hpc, hdec]
    have hgt : s.condition &&& c > 0 := Nat.pos_of_ne_zero hsat
    simp only [hgt, if_true, gt_iff_lt]
    refine ⟨_, rfl, ?_⟩
    simp only [regGet, regPut, ALU.exec, ALU_OPS]
    norm_num
    split_ifs <;> simp_all

/-- Concrete instance for the C5 witness: the parsed fields of
`JUMP/P again`, a label table with `again ↦ 0`, and a CPU at address 2
whose memory holds the encoded `ADD/P r15,r0,r15[-2]`. -/
def c5Fields : Fields :=
  { predicate := some "P".toList, labelref := "again".toList, kind := .JUMP }

def c5Labels : List Char → Option Nat :=
  labelsUpdate (fun _ => none) "again".toList 0

def c5State : CPUState :=
  CPUState.mk (fun _ => 2) CondFlag.P false
    (fun _ => ((Instruction.mk .ADD CondFlag.P 15 0 15 (-2) 0).encode : Int))

theorem jump_lowering_transfers_control_witness :
    jumpBranch c5Fields c5Labels 2
        = some (lowerJump c5Fields (((0 : Nat) : Int) - ((2 : Nat) : Int)))
      ∧ ∃ s', step c5State = some s' ∧ regGet s'.regs 15 = ((0 : Nat) : Int) := by
  obtain ⟨h1, h2⟩ :=
    jump_lowering_transfers_control c5Fields c5Labels 2 0 (by decide)
  exact ⟨h1, h2 c5State CondFlag.P (by decide) (by decide) (by decide)⟩

/-- C7: phase 1's `transform` does *not* survive an error on the first
line: the parse error is caught and counted, but the address update
`if fields["kind"] != AsmSrcKind.COMMENT` sits outside the `try` and reads
the still-unbound local `fields`, so an `UnboundLocalError` escapes
`transform` instead of processing continuing to the next line. -/
theorem phase1_first_line_error_crashes :
    transform ["@@@".toList] = .crash := by decide

end Duck
